import Mathlib

/-!
mysmartctl: control handshake, serial configuration and terminal loop.

A shallow embedding of `src/mysmartctl.c`.

* `char` buffers are lists of bytes (`Fin 256`); a C string is the part of a
  buffer in front of its first zero byte (`cstr`).
* `read(2)` on the serial line is a queue of arrivals (`Tty`); a call hands
  out at most the number of bytes asked for.
* `int` is 32 bits wide (`toInt32`), `unsigned` counters are kept modulo
  `2 ^ 32`, `time_t` differences are mathematical integers.
* The terminal loop is driven by a script with one entry per iteration in
  which the `running` flag was seen set; system calls and curses calls are
  recorded in an event log.
-/

namespace MySmartCtl

/-! ## Bytes and C strings -/

/-- One `char` of storage, by its bit pattern. -/
abbrev Byte := Fin 256

/-- The C string held in a buffer: the bytes in front of the first zero byte. -/
def cstr (buf : List Byte) : List Byte :=
  buf.takeWhile (fun b => b != 0)

/-- The libc `strlen`. -/
def strlen (buf : List Byte) : Nat :=
  (cstr buf).length

/-- Offset of the first place at which `needle` starts in `hay`, both plain byte lists. -/
def findSub (needle : List Byte) : List Byte → Option Nat
  | [] => if needle = [] then some 0 else none
  | h :: t =>
    if needle.isPrefixOf (h :: t) then some 0
    else (findSub needle t).map (fun i => i + 1)

/-- The libc `strstr`: offset of the first occurrence of the C string in `needle`
inside the C string in `haystack`, `none` standing for `NULL`. -/
def strstr (haystack needle : List Byte) : Option Nat :=
  findSub (cstr needle) (cstr haystack)

/-- Storing `bs` into `buf` from index `off` on, as `read` does with `buffer + length`. -/
def store (buf : List Byte) (off : Nat) (bs : List Byte) : List Byte :=
  buf.take off ++ bs ++ buf.drop (off + bs.length)

/-! ## The serial line -/

/-- What the line delivers next: a burst of bytes, or a failing `read`. -/
inductive Arrival where
  | bytes (bs : List Byte)
  | fail
  deriving DecidableEq, Repr

/-- The serial line as seen by `read`: the arrivals still to come. -/
abbrev Tty := List Arrival

/-- Outcome of one `read(tty, dst, count)`. -/
structure ReadOut where
  /-- Return value of `read`. -/
  ret : Int
  /-- Bytes stored at `dst` (empty unless `ret > 0`). -/
  data : List Byte
  /-- The line afterwards. -/
  rest : Tty
  deriving DecidableEq, Repr

/-- The system call `read(tty, dst, count)`: at most `count` bytes of the next burst are
handed out and the remainder of the burst stays queued; an empty burst or an exhausted
line reads as `0`, a failure as `-1`. -/
def read : Tty → Nat → ReadOut
  | [], _ => { ret := 0, data := [], rest := [] }
  | Arrival.fail :: rest, _ => { ret := -1, data := [], rest := rest }
  | Arrival.bytes bs :: rest, count =>
    if count = 0 then { ret := 0, data := [], rest := Arrival.bytes bs :: rest }
    else if bs.length ≤ count then { ret := bs.length, data := bs, rest := rest }
    else { ret := count, data := bs.take count, rest := Arrival.bytes (bs.drop count) :: rest }

/-- The bytes `write_tty(device, buffer, length)` hands to `write(2)`:
`length` of them, or the C string in the buffer when `length` is not positive. -/
def write_tty (buffer : List Byte) (length : Int) : List Byte :=
  buffer.take (if length > 0 then length.toNat else strlen buffer)

/-! ## The control handshake `mysmartusb_ctl` -/

/-- The `buffer[16]` of `mysmartusb_ctl` after `buffer[7] = command`. -/
def frameBuffer (command : Byte) : List Byte :=
  ([0xE6, 0xB5, 0xBA, 0xB9, 0xB2, 0xB3, 0xA9, 0, 0, 0, 0, 0, 0, 0, 0, 0] : List Byte).set 7 command

/-- The `response[4]` of `mysmartusb_ctl` after `response[2] = command`;
its initialiser is `F7 B1 20 00`. -/
def response (command : Byte) : List Byte :=
  ([0xF7, 0xB1, 0x20, 0] : List Byte).set 2 command

/-- The string literal `"\r\n"`. -/
def crlf : List Byte := [0x0D, 0x0A, 0]

/-- Variables of the read loop, with a record of what happened so far. -/
structure LoopState where
  buffer : List Byte
  length : Nat
  tty : Tty
  /-- Every byte the reads stored, in order. -/
  received : List Byte
  /-- Number of reads that returned a positive count. -/
  reads : Nat
  /-- Indices at which the terminating zero was stored. -/
  nulAt : List Nat
  /-- Byte counts asked of `read`, paired with what it returned. -/
  asked : List (Nat × Int)
  deriving DecidableEq, Repr

/-- The statement `buffer[length += bytes] = 0;` together with the store `read` made at
`buffer + length`, `r` being what that `read` returned. -/
def loop_body (s : LoopState) (r : ReadOut) : LoopState :=
  let length := s.length + r.ret.toNat
  { buffer := (store s.buffer s.length r.data).set length 0,
    length := length,
    tty := r.rest,
    received := s.received ++ r.data,
    reads := s.reads + 1,
    nulAt := s.nulAt ++ [length],
    asked := s.asked ++ [(15 - s.length, r.ret)] }

/-- The loop
`while ((bytes = read(tty, buffer + length, 15 - length)) > 0 && length < 16)`
with its body and its `break` on `"\r\n"`, run for at most `fuel` calls of `read`. -/
def read_loop : Nat → LoopState → LoopState
  | 0, s => s
  | fuel + 1, s =>
    let r := read s.tty (15 - s.length)
    if 0 < r.ret ∧ s.length < 16 then
      let s1 := loop_body s r
      if s1.length > 1 ∧ (strstr s1.buffer crlf).isSome then s1
      else read_loop fuel s1
    else
      { s with tty := r.rest, asked := s.asked ++ [(15 - s.length, r.ret)] }

/-- What a call of `mysmartusb_ctl` did. -/
structure CtlResult where
  /-- Return value: `0` or `-1`. -/
  ret : Int
  /-- Byte blocks handed to `write(2)`. -/
  written : List (List Byte)
  /-- Number of `close_tty` calls. -/
  closed : Nat
  /-- The read loop at its end (`none` when the channel did not open). -/
  final : Option LoopState
  deriving DecidableEq, Repr

/-- Calls of `read` that always suffice for the read loop: fifteen positive ones and a last one. -/
def readFuel : Nat := 16

/-- The read loop's variables on entry: `length = 0`, the frame still in `buffer`. -/
def loopStart (command : Byte) (tty : Tty) : LoopState :=
  { buffer := frameBuffer command, length := 0, tty := tty, received := [], reads := 0,
    nulAt := [], asked := [] }

/-- The function `mysmartusb_ctl(command)`; `line` is what `open_tty` yields, `none` for `-1`. -/
def mysmartusb_ctl (line : Option Tty) (command : Byte) : CtlResult :=
  match line with
  | none => { ret := -1, written := [], closed := 0, final := none }
  | some tty =>
    let buffer := frameBuffer command
    let resp := response command
    let out := write_tty buffer 8
    let s := read_loop readFuel (loopStart command tty)
    if (strstr s.buffer resp).isNone then
      { ret := -1, written := [out], closed := 1, final := some s }
    else
      { ret := 0, written := [out], closed := 1, final := some s }

/-! ## `main`: one command byte per mode -/

def DATA_MODE : Int := 0
def PROGRAMMER_MODE : Int := 1
def QUIET_MODE : Int := 2
def RESET_BOARD : Int := 3
def RESET_PROGRAMMER : Int := 4
def BOARD_ON : Int := 5
def BOARD_OFF : Int := 6
def TERMINAL : Int := 7

/-- The statements under one `case` label of the `switch` in `main`. -/
inductive Arm where
  /-- The macro call `mysmartusb(a, b, c)`. -/
  | ctl (a : Byte) (b c : String)
  /-- The statement `return terminal();`. -/
  | term
  deriving DecidableEq, Repr

/-- The `switch (mode)` of `main`: its labels with their statements, in source order. -/
def arms : List (Int × Arm) :=
  [ (DATA_MODE, Arm.ctl 0x64 "Unable to switch into data mode\n"
      "Successfully switched to data mode\n"),
    (PROGRAMMER_MODE, Arm.ctl 0x70 "Unable to switch into programming mode\n"
      "Successfully switched to programming mode\n"),
    (QUIET_MODE, Arm.ctl 0x71 "Unable to switch into quiet mode\n"
      "Successfully switched to quiet mode\n"),
    (RESET_BOARD, Arm.ctl 0x72 "Unable to reset the board\n"
      "Successfully reset the board\n"),
    (RESET_PROGRAMMER, Arm.ctl 0x52 "Unable to reset the programmer\n"
      "Successfully reset the programmer\n"),
    (BOARD_ON, Arm.ctl 0x2B "Unable to turn the board power on\n"
      "Successfully turned the board power on\n"),
    (BOARD_OFF, Arm.ctl 0x2D "Unable to turn the board power off\n"
      "Successfully turned the board power off\n"),
    (TERMINAL, Arm.term) ]

/-- What a run of `main` did. -/
structure MainResult where
  /-- Exit status. -/
  exit : Int
  /-- The calls of `mysmartusb_ctl`, in order: the argument and what the call did. -/
  calls : List (Byte × CtlResult)
  /-- What `printf` was given, in order. -/
  printed : List String
  deriving DecidableEq, Repr

/-- One arm run after `acc`: the result so far, and whether the arm returned (`false` when
control runs on into the next arm). The macro expands to
`if (mysmartusb_ctl((a)) == -1) { printf(b); return 1; } else { printf(c); return 0; }`. -/
def runArm (line : Option Tty) (terminal : Int) (acc : MainResult) :
    Arm → MainResult × Bool
  | Arm.ctl a b c =>
    let r := mysmartusb_ctl line a
    if r.ret = -1 then
      ({ exit := 1, calls := acc.calls ++ [(a, r)], printed := acc.printed ++ [b] }, true)
    else
      ({ exit := 0, calls := acc.calls ++ [(a, r)], printed := acc.printed ++ [c] }, true)
  | Arm.term => ({ acc with exit := terminal }, true)

/-- The statements from a label on, arm after arm until one returns; running off the end of
the `switch` reaches `return 0;`. -/
def runFrom (line : Option Tty) (terminal : Int) : List (Int × Arm) → MainResult → MainResult
  | [], acc => { acc with exit := 0 }
  | (_, arm) :: rest, acc =>
    let (acc1, returned) := runArm line terminal acc arm
    if returned then acc1 else runFrom line terminal rest acc1

/-- The function `main` once `parse_options` has set `mode`; `line` is what `open_tty` yields
and `terminal` what `terminal()` returns. -/
def main (mode : Int) (line : Option Tty) (terminal : Int) : MainResult :=
  runFrom line terminal (arms.dropWhile (fun la => la.1 != mode))
    { exit := 0, calls := [], printed := [] }

/-! ## `open_tty`: the line settings -/

/-- The `termios.h` flag bits `open_tty` uses. -/
structure TermBits where
  PARENB : Nat
  PARODD : Nat
  HUPCL : Nat
  CSIZE : Nat
  CSTOPB : Nat
  CREAD : Nat
  CLOCAL : Nat
  CS8 : Nat
  ISIG : Nat
  ICANON : Nat
  ECHO : Nat
  deriving DecidableEq, Repr

/-- The values of the flag bits on Linux (`asm-generic/termbits.h`). -/
def linuxBits : TermBits :=
  { PARENB := 0o400, PARODD := 0o1000, HUPCL := 0o2000, CSIZE := 0o60, CSTOPB := 0o100,
    CREAD := 0o200, CLOCAL := 0o4000, CS8 := 0o60, ISIG := 0o1, ICANON := 0o2, ECHO := 0o10 }

def NO_PARITY : Int := 78
def EVEN_PARITY : Int := 69
def ODD_PARITY : Int := 79

/-- The fields of `struct termios` that `open_tty` touches. -/
structure Termios where
  c_iflag : Nat
  c_oflag : Nat
  c_cflag : Nat
  c_lflag : Nat
  vmin : Nat
  vtime : Nat
  ispeed : Nat
  ospeed : Nat
  deriving DecidableEq, Repr

/-- The complement `~m` of a flag mask, as a 32-bit `tcflag_t`. -/
def maskOff (m : Nat) : Nat := (2 ^ 32 - 1) ^^^ m

/-- Lines 399 to 418 of `open_tty`: the settings handed to `tcsetattr`, computed from
those `tcgetattr` reported. -/
def configure (k : TermBits) (t : Termios) (baud : Nat) (two_stop_bits parity : Int) :
    Termios :=
  let cflag1 := t.c_cflag &&& maskOff (k.PARENB ||| k.HUPCL ||| k.CSIZE ||| k.CSTOPB)
  let cflag2 := cflag1 ||| (k.CREAD ||| k.CLOCAL ||| (if two_stop_bits ≠ 0 then k.CSTOPB else 0)
    ||| k.CS8)
  let cflag3 := if two_stop_bits ≠ 0 then cflag2 ||| k.CSTOPB else cflag2
  let cflag4 :=
    if parity ≠ NO_PARITY then
      cflag3 ||| (k.PARENB ||| (if parity = ODD_PARITY then k.PARODD else 0))
    else cflag3
  { c_iflag := 0,
    c_oflag := 0,
    c_cflag := cflag4,
    c_lflag := t.c_lflag &&& maskOff (k.ISIG ||| k.ICANON ||| k.ECHO),
    vmin := 1,
    vtime := 0,
    ispeed := baud,
    ospeed := baud }

/-- What the system calls of `open_tty` answer. -/
structure OpenEnv where
  /-- Descriptor from `open`, `-1` on failure. -/
  fd : Int
  /-- Settings reported by `tcgetattr`, `none` when it fails. -/
  prior : Option Termios
  /-- Whether `cfsetispeed` and `cfsetospeed` accept the rate. -/
  speedOk : Bool
  /-- Whether `tcsetattr` succeeds. -/
  setOk : Bool
  deriving DecidableEq, Repr

/-- The function `open_tty`: its return value and the settings it applied, if it got to
`tcsetattr`. -/
def open_tty (k : TermBits) (env : OpenEnv) (baud : Nat) (two_stop_bits parity : Int) :
    Int × Option Termios :=
  if env.fd = -1 then (-1, none)
  else
    match env.prior with
    | none => (-1, none)
    | some t =>
      if !env.speedOk then (-1, none)
      else
        let t1 := configure k t baud two_stop_bits parity
        if !env.setOk then (-1, some t1) else (env.fd, some t1)

/-- Whether a flag word has parity generation switched on. -/
def parityEnabled (k : TermBits) (cflag : Nat) : Bool := cflag &&& k.PARENB != 0

/-- Whether a flag word selects odd polarity. -/
def oddPolarity (k : TermBits) (cflag : Nat) : Bool := cflag &&& k.PARODD != 0

/-! ## The terminal session -/

/-- Conversion to `int`: reduction modulo `2 ^ 32` into the signed range. Signed overflow of
an `int` product is taken to wrap the same way. -/
def toInt32 (x : Int) : Int := (x + 2 ^ 31) % 2 ^ 32 - 2 ^ 31

/-- Hours, minutes and seconds as the loop computes them from `diff`:
`int hours = diff / 3600; int minutes = (diff - hours * 3600) / 60;`
`int seconds = diff - hours * 3600 - minutes * 60;`. -/
def hms (diff : Int) : Int × Int × Int :=
  let hours := toInt32 (diff.tdiv 3600)
  let minutes := toInt32 ((diff - toInt32 (hours * 3600)).tdiv 60)
  let seconds := toInt32 (diff - toInt32 (hours * 3600) - toInt32 (minutes * 60))
  (hours, minutes, seconds)

/-- The conversion `%u` of an `int` or `unsigned` argument. -/
def fmtU (x : Int) : String := toString (x % 2 ^ 32).toNat

/-- The conversion `%02u`: `%u` padded with a zero to two digits. -/
def fmt02u (x : Int) : String :=
  if (x % 2 ^ 32).toNat < 10 then "0" ++ fmtU x else fmtU x

/-- The text `snprintf(buffer, 128, "%02u:%02u:%02u", hours, minutes, seconds)` formats. -/
def clock (diff : Int) : String :=
  fmt02u (hms diff).1 ++ ":" ++ fmt02u (hms diff).2.1 ++ ":" ++ fmt02u (hms diff).2.2

/-- The bytes of a text. -/
def bytesOf (s : String) : List Byte :=
  s.toList.map (fun ch => Fin.ofNat ch.toNat)

/-- The call `snprintf(buffer, 128, ...)` with `text` the formatted output. -/
def snprintf (buffer : List Byte) (text : String) : List Byte :=
  store buffer 0 ((bytesOf text).take 127 ++ [0])

/-- What the session does that can be seen from outside, in order. -/
inductive Event where
  | newwin
  | select (ret : Int)
  | sysRead (count : Nat) (ret : Int)
  /-- The call `write_tty(tty, buffer, length)`: the bytes handed to `write(2)` and what
  `write(2)` returned. -/
  | writeTty (length : Int) (data : List Byte) (ret : Int)
  /-- The calls `wcolor_set(log, colour, 0); waddnstr(log, buffer, bytes)`. -/
  | addLog (colour : Nat) (text : List Byte)
  | refreshLog
  /-- The call `mvwaddstr(info, 0, col, text)`. -/
  | putInfo (col : Int) (text : List Byte)
  | refreshInfo
  | perror
  | delwin
  | endwin
  | closeTty
  deriving DecidableEq, Repr

/-- The globals set by `parse_options`, and what the session finds on entry. -/
structure Session where
  baud_raw : String
  parity : Int
  two_stopbits : Int
  /-- What `open_tty` yields, `none` for `-1`. -/
  line : Option Tty
  /-- The value `time(NULL)` gives for `start`. -/
  start : Int
  /-- The indeterminate first content of `buffer[128]`. -/
  stack : List Byte
  deriving DecidableEq, Repr

/-- What one iteration of the loop meets. -/
structure Tick where
  /-- Return value of `select`. -/
  ret : Int
  /-- The value of `errno` after `select`. -/
  errno : Int
  /-- `FD_ISSET(tty, &fds)`. -/
  ttyReady : Bool
  /-- `FD_ISSET(stdin_fd, &fds)`. -/
  stdinReady : Bool
  /-- The keys `wgetch(log)` returns before it returns `ERR`. -/
  keys : List Byte
  /-- Return value of the `write(2)` inside `write_tty`. -/
  wr : Int
  /-- The value of `time(NULL)`. -/
  now : Int
  deriving DecidableEq, Repr

/-- The locals of `terminal` and the events so far. -/
structure Term where
  /-- The counter `unsigned rx`. -/
  rx : Nat
  /-- The counter `unsigned tx`. -/
  tx : Nat
  buffer : List Byte
  tty : Tty
  log : List Event
  deriving DecidableEq, Repr

def EINTR : Int := 4

/-- The loop `while ((c = wgetch(log)) != ERR) buffer[bytes++] = c;` over the pending keys.
The buffer has 128 elements: a store at an index from 128 on lies outside it, what follows
is undefined, and the index is reported as an error. -/
def drain : List Byte → List Byte → Nat → Except Nat (List Byte × Nat)
  | [], buffer, bytes => Except.ok (buffer, bytes)
  | c :: cs, buffer, bytes =>
    if bytes < 128 then drain cs (buffer.set bytes c) (bytes + 1)
    else Except.error bytes

/-- The `if (FD_ISSET(tty, &fds))` block. -/
def serveTty (s : Term) : Term :=
  let r := read s.tty 128
  if r.ret > 0 then
    let buffer := store s.buffer 0 r.data
    { rx := (s.rx + r.ret.toNat) % 2 ^ 32,
      tx := s.tx,
      buffer := buffer,
      tty := r.rest,
      log := s.log ++ [Event.sysRead 128 r.ret, Event.addLog 1 (buffer.take r.ret.toNat)] }
  else
    { s with tty := r.rest, log := s.log ++ [Event.sysRead 128 r.ret] }

/-- The `if (FD_ISSET(stdin_fd, &fds))` block. -/
def serveKeys (s : Term) (t : Tick) : Except Nat Term :=
  match drain t.keys s.buffer 0 with
  | Except.error i => Except.error i
  | Except.ok (buffer, bytes) =>
    Except.ok
      { s with
        tx := (s.tx + bytes) % 2 ^ 32,
        buffer := buffer,
        log := s.log ++ [Event.writeTty bytes (write_tty buffer bytes) t.wr,
          Event.addLog 2 (buffer.take bytes)] }

/-- The `if (ret > 0)` block. -/
def serve (s : Term) (t : Tick) : Except Nat Term :=
  let s1 := if t.ttyReady then serveTty s else s
  match (if t.stdinReady then serveKeys s1 t else Except.ok s1) with
  | Except.error i => Except.error i
  | Except.ok s2 => Except.ok { s2 with log := s2.log ++ [Event.refreshLog] }

/-- The status line: lines 324 to 339. -/
def status (ses : Session) (s : Term) (now : Int) : Term :=
  let diff := now - ses.start
  let buffer1 := snprintf s.buffer (clock diff)
  let counters := fmtU s.rx ++ "B/" ++ fmtU s.tx ++ "B   "
  let space : Int := counters.length
  let buffer2 := snprintf buffer1 counters
  let mode := ses.baud_raw ++ "," ++ String.singleton (Char.ofNat ses.parity.toNat) ++ ","
    ++ toString (toInt32 (ses.two_stopbits + 1))
  let buffer3 := snprintf buffer2 mode
  { s with
    buffer := buffer3,
    log := s.log ++
      [Event.putInfo 0 (bytesOf "Connected: "), Event.putInfo 11 (cstr buffer1),
       Event.putInfo 24 (bytesOf "RX/TX: "), Event.putInfo 31 (cstr buffer2),
       Event.putInfo (31 + space) (bytesOf "Mode: "), Event.putInfo (37 + space) (cstr buffer3),
       Event.refreshInfo] }

/-- How far a run got. -/
inductive Outcome where
  /-- The loop condition is about to be evaluated again. -/
  | continues (s : Term)
  /-- The function `terminal` returned `ret`. -/
  | returned (ret : Int) (s : Term)
  /-- A store outside `buffer[128]`, at this index. -/
  | fault (index : Nat)
  deriving DecidableEq, Repr

/-- The state an outcome carries, if any. -/
def Outcome.state? : Outcome → Option Term
  | Outcome.continues s => some s
  | Outcome.returned _ s => some s
  | Outcome.fault _ => none

/-- One pass through the body of `while (running)`. -/
def iteration (ses : Session) (s : Term) (t : Tick) : Outcome :=
  let s0 := { s with log := s.log ++ [Event.select t.ret] }
  match (if t.ret > 0 then serve s0 t else Except.ok s0) with
  | Except.error i => Outcome.fault i
  | Except.ok s1 =>
    if t.ret < 0 ∧ t.errno ≠ EINTR then
      Outcome.returned (-1) { s1 with log := s1.log ++ [Event.perror, Event.closeTty] }
    else
      Outcome.continues (status ses s1 t.now)

/-- The passes of the loop for the ticks at which `running` was found set. -/
def iterate (ses : Session) : Term → List Tick → Outcome
  | s, [] => Outcome.continues s
  | s, t :: ts =>
    match iteration ses s t with
    | Outcome.continues s1 => iterate ses s1 ts
    | o => o

/-- The locals when the loop is entered. -/
def termStart (ses : Session) (tty : Tty) : Term :=
  { rx := 0, tx := 0, buffer := ses.stack, tty := tty,
    log := [Event.newwin, Event.newwin] }

/-- The function `terminal`: `ticks` lists what the loop meets while `running` is set; after
them `running` is found clear. -/
def terminal (ses : Session) (ticks : List Tick) : Outcome :=
  match ses.line with
  | none => Outcome.returned (-1) (termStart ses [])
  | some tty =>
    match iterate ses (termStart ses tty) ticks with
    | Outcome.continues s =>
      Outcome.returned 0
        { s with log := s.log ++ [Event.delwin, Event.delwin, Event.endwin, Event.closeTty] }
    | o => o

/-- Sum of the counts the positive reads returned. -/
def rxTotal : List Event → Nat
  | [] => 0
  | Event.sysRead _ ret :: es => (if ret > 0 then ret.toNat else 0) + rxTotal es
  | _ :: es => rxTotal es

/-- Sum of the lengths `write_tty` was called with. -/
def txAsked : List Event → Nat
  | [] => 0
  | Event.writeTty length _ _ :: es => length.toNat + txAsked es
  | _ :: es => txAsked es

/-- Sum of the byte counts `write(2)` reported as written. -/
def txWritten : List Event → Nat
  | [] => 0
  | Event.writeTty _ _ ret :: es => (if ret > 0 then ret.toNat else 0) + txWritten es
  | _ :: es => txWritten es

/-- The counters agree with the event log, modulo `2 ^ 32`. -/
def Counted (s : Term) : Prop :=
  s.rx = rxTotal s.log % 2 ^ 32 ∧ s.tx = txAsked s.log % 2 ^ 32

/-! ## Invariants used in the proofs -/

/-- What holds of the loop variables whenever the loop condition is evaluated. -/
structure BufInv (c : Byte) (s : LoopState) : Prop where
  buflen : s.buffer.length = 16
  len_le : s.length ≤ 15
  rcv_len : s.received.length = s.length
  fresh : s.length = 0 → s.buffer = frameBuffer c
  filled : 0 < s.length → ∃ tail, s.buffer = s.received ++ 0 :: tail
  nul_lt : ∀ i ∈ s.nulAt, i < 16
  reads_le : s.reads ≤ s.length
  nul_len : s.nulAt.length = s.reads
  asked_ok : ∀ p ∈ s.asked, p.2 ≤ (p.1 : Int)

/-- The line still holds bursts `chunks`, none empty, and together with what was
received they make up `stream`. -/
def StreamInv (stream : List Byte) (s : LoopState) : Prop :=
  ∃ chunks : List (List Byte), s.tty = chunks.map Arrival.bytes ∧
    (∀ ch ∈ chunks, ch ≠ []) ∧ s.received ++ chunks.flatten = stream

/-- The counters of `s2` agree with its log, and its log has grown out of that of `s1`. -/
structure Follows (s1 s2 : Term) : Prop where
  counted : Counted s2
  rx_le : rxTotal s1.log ≤ rxTotal s2.log
  tx_le : txAsked s1.log ≤ txAsked s2.log

/-- Events that end a session: reporting the error, tearing down the display, closing the
channel. -/
def Event.closing : Event → Bool
  | Event.perror => true
  | Event.delwin => true
  | Event.endwin => true
  | Event.closeTty => true
  | _ => false

/-- The log of `s2` is that of `s1` with events added, none of them a closing one. -/
def Quiet (s1 s2 : Term) : Prop :=
  ∃ es : List Event, s2.log = s1.log ++ es ∧ ∀ e ∈ es, e.closing = false

/-! ## C strings: facts about `cstr`, `findSub` and `strstr` -/

theorem findSub_isSome_iff (n : List Byte) (h : List Byte) :
    (findSub n h).isSome = true ↔ n <:+: h := by
  induction h with
  | nil =>
    by_cases hn : n = []
    · simp [findSub, hn]
    · simp [findSub, hn]
  | cons a t ih =>
    rw [List.infix_cons_iff]
    by_cases hp : n.isPrefixOf (a :: t) = true
    · have hp2 : n <+: a :: t := List.isPrefixOf_iff_prefix.mp hp
      simp [findSub, hp, hp2]
    · have hp2 : ¬ n <+: a :: t := fun h => hp (List.isPrefixOf_iff_prefix.mpr h)
      simp only [findSub, hp, hp2, Option.isSome_map', false_or]
      simpa using ih

theorem strstr_isSome_iff (hay needle : List Byte) :
    (strstr hay needle).isSome = true ↔ cstr needle <:+: cstr hay :=
  findSub_isSome_iff _ _

theorem cstr_append_zero (a r : List Byte) : cstr (a ++ 0 :: r) = cstr a := by
  induction a with
  | nil => simp [cstr]
  | cons x xs ih =>
    unfold cstr at ih ⊢
    by_cases hx : x = 0
    · simp [List.takeWhile, hx]
    · have : (x != 0) = true := by simpa using hx
      simp [List.takeWhile, this, ih]

theorem cstr_initial (a : List Byte) : cstr a <+: a :=
  List.takeWhile_prefix _

theorem cstr_response (c : Byte) :
    cstr (response c) = if c = 0 then [0xF7, 0xB1] else [0xF7, 0xB1, c] := by
  by_cases hc : c = 0
  · subst hc; decide
  · have : (c != 0) = true := by simpa using hc
    simp [cstr, response, List.takeWhile, hc, this]

theorem frame_no_response (c : Byte) :
    (strstr (frameBuffer c) (response c)).isSome = false := by
  unfold strstr
  rw [cstr_response]
  by_cases hc : c = 0
  · subst hc; decide
  · have h1 : (c != 0) = true := by simpa using hc
    have h2 : cstr (frameBuffer c) = [0xE6, 0xB5, 0xBA, 0xB9, 0xB2, 0xB3, 0xA9, c] := by
      simp [cstr, frameBuffer, List.takeWhile, h1]
    rw [h2]
    simp [hc, findSub, List.isPrefixOf]

/-! ## The read loop of `mysmartusb_ctl` -/

theorem read_bytes (bs : List Byte) (rest : Tty) (count : Nat) :
    read (Arrival.bytes bs :: rest) count =
      if count = 0 then { ret := 0, data := [], rest := Arrival.bytes bs :: rest }
      else if bs.length ≤ count then { ret := bs.length, data := bs, rest := rest }
      else { ret := count, data := bs.take count,
             rest := Arrival.bytes (bs.drop count) :: rest } := rfl

theorem read_data_length (t : Tty) (n : Nat) :
    (read t n).data.length = (read t n).ret.toNat := by
  cases t with
  | nil => simp [read]
  | cons a rest =>
    cases a with
    | fail => simp [read]
    | bytes bs =>
      rw [read_bytes]
      split_ifs with h1 h2
      · simp
      · simp
      · simp; omega

theorem read_ret_le (t : Tty) (n : Nat) : (read t n).ret ≤ (n : Int) := by
  cases t with
  | nil => simp [read]
  | cons a rest =>
    cases a with
    | fail => simp [read]; omega
    | bytes bs =>
      rw [read_bytes]
      split_ifs with h1 h2
      · simp
      · simpa using h2
      · simp

theorem bufInv_start (c : Byte) (tty : Tty) : BufInv c (loopStart c tty) := by
  constructor <;> simp [loopStart, frameBuffer]

theorem take_of_inv {c : Byte} {s : LoopState} (h : BufInv c s) :
    s.buffer.take s.length = s.received := by
  rcases Nat.eq_zero_or_pos s.length with h0 | hpos
  · have := h.rcv_len
    rw [h0] at this ⊢
    simp [List.length_eq_zero.mp this]
  · obtain ⟨tail, ht⟩ := h.filled hpos
    rw [ht, ← h.rcv_len]
    simp

theorem bufInv_body {c : Byte} {s : LoopState} (h : BufInv c s)
    (hpos : 0 < (read s.tty (15 - s.length)).ret) :
    BufInv c (loop_body s (read s.tty (15 - s.length))) ∧
      s.length < (loop_body s (read s.tty (15 - s.length))).length := by
  have hdl := read_data_length s.tty (15 - s.length)
  have hle := read_ret_le s.tty (15 - s.length)
  have hlen := h.len_le
  set r := read s.tty (15 - s.length) with hr
  have hn : r.ret.toNat ≤ 15 - s.length := by omega
  have hn0 : 0 < r.ret.toNat := by omega
  have hst : (store s.buffer s.length r.data).length = 16 := by
    simp [store, h.buflen]; omega
  have htk : (store s.buffer s.length r.data).take (s.length + r.ret.toNat)
      = s.received ++ r.data := by
    unfold store
    rw [take_of_inv h, List.append_assoc, ← List.append_assoc s.received]
    rw [List.take_append_eq_append_take]
    simp [h.rcv_len, hdl]
  refine ⟨⟨?_, ?_, ?_, ?_, ?_, ?_, ?_, ?_, ?_⟩, ?_⟩
  · simp [loop_body, hst]
  · simp only [loop_body]; omega
  · simp [loop_body, h.rcv_len, hdl]
  · intro h0; simp only [loop_body] at h0; omega
  · intro _
    refine ⟨(store s.buffer s.length r.data).drop (s.length + r.ret.toNat + 1), ?_⟩
    simp only [loop_body]
    rw [List.set_eq_take_append_cons_drop, htk]
    simp [hst]; omega
  · intro i hi
    simp only [loop_body, List.mem_append, List.mem_singleton] at hi
    rcases hi with hi | hi
    · exact h.nul_lt i hi
    · omega
  · have := h.reads_le; simp only [loop_body]; omega
  · simp [loop_body, h.nul_len]
  · intro p hp
    simp only [loop_body, List.mem_append, List.mem_singleton] at hp
    rcases hp with hp | hp
    · exact h.asked_ok p hp
    · subst hp; simpa using hle
  · simp only [loop_body]; omega

theorem bufInv_loop (c : Byte) (fuel : Nat) (s : LoopState) (h : BufInv c s) :
    BufInv c (read_loop fuel s) := by
  induction fuel generalizing s with
  | zero => simpa [read_loop] using h
  | succ n ih =>
    unfold read_loop
    simp only
    split_ifs with h1 h2
    · exact (bufInv_body h h1.1).1
    · exact ih _ (bufInv_body h h1.1).1
    · have hle := read_ret_le s.tty (15 - s.length)
      constructor
      · exact h.buflen
      · exact h.len_le
      · exact h.rcv_len
      · exact h.fresh
      · exact h.filled
      · exact h.nul_lt
      · exact h.reads_le
      · exact h.nul_len
      · intro p hp
        simp only [List.mem_append, List.mem_singleton] at hp
        rcases hp with hp | hp
        · exact h.asked_ok p hp
        · subst hp; simpa using hle

/-- The C string in the buffer is the C string of what was received, once anything was. -/
theorem cstr_buffer_of_inv {c : Byte} {s : LoopState} (h : BufInv c s) (hpos : 0 < s.length) :
    cstr s.buffer = cstr s.received := by
  obtain ⟨tail, ht⟩ := h.filled hpos
  rw [ht, cstr_append_zero]

/-- Sixteen calls of `read` are enough: more fuel changes nothing. -/
theorem read_loop_fuel (c : Byte) (fuel fuel2 : Nat) (s : LoopState) (h : BufInv c s)
    (h1 : 16 ≤ s.length + fuel) (h2 : 16 ≤ s.length + fuel2) :
    read_loop fuel s = read_loop fuel2 s := by
  induction fuel generalizing s fuel2 with
  | zero => have := h.len_le; omega
  | succ n ih =>
    cases fuel2 with
    | zero => have := h.len_le; omega
    | succ m =>
      unfold read_loop
      simp only
      split_ifs with h3 h4
      · rfl
      · have hb := bufInv_body h h3.1
        exact ih m _ hb.1 (by omega) (by omega)
      · rfl

/-! ## Claims about `mysmartusb_ctl` -/

theorem ctl_final (tty : Tty) (c : Byte) :
    (mysmartusb_ctl (some tty) c).final = some (read_loop readFuel (loopStart c tty)) := by
  unfold mysmartusb_ctl
  simp only
  split_ifs <;> rfl

theorem ctl_ret_zero_iff (tty : Tty) (c : Byte) :
    (mysmartusb_ctl (some tty) c).ret = 0 ↔
      (strstr (read_loop readFuel (loopStart c tty)).buffer (response c)).isSome = true := by
  unfold mysmartusb_ctl
  simp only
  split_ifs with h
  · simp [Option.isNone_iff_eq_none.mp h]
  · have : (strstr (read_loop readFuel (loopStart c tty)).buffer (response c)).isSome = true := by
      cases hs : strstr (read_loop readFuel (loopStart c tty)).buffer (response c) with
      | none => simp [hs] at h
      | some v => rfl
    simp [this]

theorem ctl_ret_cases (line : Option Tty) (c : Byte) :
    (mysmartusb_ctl line c).ret = 0 ∨ (mysmartusb_ctl line c).ret = -1 := by
  cases line with
  | none => right; rfl
  | some tty =>
    unfold mysmartusb_ctl
    simp only
    split_ifs
    · right; rfl
    · left; rfl

/-- The final search of `mysmartusb_ctl`, in terms of the bytes received. -/
theorem ctl_search (tty : Tty) (c : Byte) :
    (mysmartusb_ctl (some tty) c).ret = 0 ↔
      cstr (response c) <:+: cstr (read_loop readFuel (loopStart c tty)).received := by
  rw [ctl_ret_zero_iff]
  have hinv := bufInv_loop c readFuel _ (bufInv_start c tty)
  rcases Nat.eq_zero_or_pos (read_loop readFuel (loopStart c tty)).length with h0 | hpos
  · have hb := hinv.fresh h0
    have hr : (read_loop readFuel (loopStart c tty)).received = [] := by
      apply List.length_eq_zero.mp
      rw [hinv.rcv_len, h0]
    rw [hb, hr, frame_no_response]
    have hne : cstr (response c) ≠ [] := by
      rw [cstr_response]; split_ifs <;> simp
    have hnil : cstr ([] : List Byte) = [] := rfl
    rw [hnil, List.infix_nil]
    simp [hne]
  · rw [strstr_isSome_iff, cstr_buffer_of_inv hinv hpos]

theorem cstr_of_no_zero (l : List Byte) (h : ∀ b ∈ l, b ≠ 0) : cstr l = l := by
  unfold cstr
  rw [List.takeWhile_eq_self_iff]
  intro b hb
  simpa using h b hb

/-- C1, counterexample: the device answers `00 F7 B1 'd'` to the command `'d'`. The bytes
accumulated contain `F7 B1 'd'` as a contiguous substring, yet `mysmartusb_ctl` returns
`-1`: the search stops at the zero byte in front of them. -/
theorem ctl_zero_noise_fails :
    ∃ s, (mysmartusb_ctl (some [Arrival.bytes [0x00, 0xF7, 0xB1, 0x64]]) 0x64).final = some s ∧
      ([0xF7, 0xB1, 0x64] : List Byte) <:+: s.received ∧
      (mysmartusb_ctl (some [Arrival.bytes [0x00, 0xF7, 0xB1, 0x64]]) 0x64).ret = -1 :=
  ⟨_, rfl, by decide, by decide⟩

/-- C1, amended: when the channel opens, for every command byte `c` and every line,
`mysmartusb_ctl` returns `0` exactly when the C string of the bytes accumulated (the bytes
in front of their first zero byte) contains the response string, `F7 B1 c` (`F7 B1` for
`c = 0`), as a contiguous substring, and `-1` otherwise; the accumulated bytes are the
first `length` bytes of the buffer; nothing read gives `-1`; and for `c ≠ 0` and
accumulated bytes free of zero bytes, `0` is returned exactly when `F7 B1 c` occurs in
the accumulated bytes. -/
theorem ctl_success_iff_cstring (tty : Tty) (c : Byte) :
    ∃ s, (mysmartusb_ctl (some tty) c).final = some s ∧
      s.received = s.buffer.take s.length ∧
      ((mysmartusb_ctl (some tty) c).ret = 0 ↔
        (if c = 0 then [0xF7, 0xB1] else [0xF7, 0xB1, c]) <:+: cstr s.received) ∧
      ((mysmartusb_ctl (some tty) c).ret = -1 ↔
        ¬ (if c = 0 then [0xF7, 0xB1] else [0xF7, 0xB1, c]) <:+: cstr s.received) ∧
      (s.received = [] → (mysmartusb_ctl (some tty) c).ret = -1) ∧
      (c ≠ 0 → (∀ b ∈ s.received, b ≠ 0) →
        ((mysmartusb_ctl (some tty) c).ret = 0 ↔ [0xF7, 0xB1, c] <:+: s.received)) := by
  have hs := ctl_search tty c
  rw [cstr_response] at hs
  have hinv := bufInv_loop c readFuel _ (bufInv_start c tty)
  have hcases := ctl_ret_cases (some tty) c
  have hneg : (mysmartusb_ctl (some tty) c).ret = -1 ↔
      ¬ (if c = 0 then [0xF7, 0xB1] else [0xF7, 0xB1, c]) <:+:
        cstr (read_loop readFuel (loopStart c tty)).received := by
    rw [← hs]
    constructor
    · intro h1 h2; rw [h1] at h2; exact absurd h2 (by decide)
    · intro h1; rcases hcases with h | h
      · exact absurd h h1
      · exact h
  refine ⟨_, ctl_final tty c, (take_of_inv hinv).symm, hs, hneg, ?_, ?_⟩
  · intro hnil
    rw [hneg, hnil]
    have hnil2 : cstr ([] : List Byte) = [] := rfl
    rw [hnil2, List.infix_nil]
    split_ifs <;> simp
  · intro hc hz
    rw [hs, cstr_of_no_zero _ hz]
    simp [hc]

/-- C1, witness: the device answers `'A' F7 B1 'd' CR LF` to the command `'d'`. -/
theorem ctl_success_iff_cstring_witness :
    (mysmartusb_ctl (some [Arrival.bytes [0x41, 0xF7, 0xB1, 0x64, 0x0D, 0x0A]]) 0x64).ret = 0 ∧
      ∃ s, (mysmartusb_ctl (some [Arrival.bytes [0x41, 0xF7, 0xB1, 0x64, 0x0D, 0x0A]])
          0x64).final = some s ∧
        ([0xF7, 0xB1, 0x64] : List Byte) <:+: s.received := by
  obtain ⟨s, h1, _, _, _, _, h6⟩ :=
    ctl_success_iff_cstring [Arrival.bytes [0x41, 0xF7, 0xB1, 0x64, 0x0D, 0x0A]] 0x64
  have hs : s = read_loop readFuel
      (loopStart 0x64 [Arrival.bytes [0x41, 0xF7, 0xB1, 0x64, 0x0D, 0x0A]]) := by
    have h0 := ctl_final [Arrival.bytes [0x41, 0xF7, 0xB1, 0x64, 0x0D, 0x0A]] 0x64
    rw [h1] at h0
    exact Option.some.inj h0
  have hrcv : s.received = [0x41, 0xF7, 0xB1, 0x64, 0x0D, 0x0A] := by rw [hs]; rfl
  have hz : ∀ b ∈ s.received, b ≠ 0 := by
    rw [hrcv]
    intro b hb
    simp only [List.mem_cons, List.mem_singleton, List.not_mem_nil, or_false] at hb
    rcases hb with h | h | h | h | h | h <;> rw [h] <;> decide
  have hret := h6 (by decide) hz
  exact ⟨by decide, s, h1, hret.mp (by decide)⟩

/-- C3, counterexample: for the command `'d'` the string searched for is not
`F7 B1 20 'd'`; a device answering `F7 B1 20 'd' CR LF` is refused and one answering
`F7 B1 'd' CR LF` is accepted. -/
theorem response_has_no_space :
    cstr (response 0x64) ≠ [0xF7, 0xB1, 0x20, 0x64] ∧
      (mysmartusb_ctl (some [Arrival.bytes [0xF7, 0xB1, 0x20, 0x64, 0x0D, 0x0A]]) 0x64).ret = -1 ∧
      (mysmartusb_ctl (some [Arrival.bytes [0xF7, 0xB1, 0x64, 0x0D, 0x0A]]) 0x64).ret = 0 := by
  decide

/-- C3, amended: for every command byte `c` other than zero the response array is
`F7 B1 c 00`, the string searched for is the three bytes `F7 B1 c` (the space of the
initialiser is overwritten by the command byte), and `strstr(buffer, response)` succeeds
exactly when `F7 B1 c` occurs in the C string of the buffer. -/
theorem response_is_magic_then_command (c : Byte) (hc : c ≠ 0) (buf : List Byte) :
    response c = [0xF7, 0xB1, c, 0] ∧
      cstr (response c) = [0xF7, 0xB1, c] ∧
      ((strstr buf (response c)).isSome = true ↔ [0xF7, 0xB1, c] <:+: cstr buf) := by
  have h := cstr_response c
  rw [if_neg hc] at h
  refine ⟨rfl, h, ?_⟩
  rw [strstr_isSome_iff, h]

/-- C3, witness: the command `'d'` and a buffer holding `'A' F7 B1 'd'`. -/
theorem response_is_magic_then_command_witness :
    (0x64 : Byte) ≠ 0 ∧ response 0x64 = [0xF7, 0xB1, 0x64, 0] ∧
      cstr (response 0x64) = [0xF7, 0xB1, 0x64] ∧
      ((strstr [0x41, 0xF7, 0xB1, 0x64, 0] (response 0x64)).isSome = true ↔
        [0xF7, 0xB1, 0x64] <:+: cstr [0x41, 0xF7, 0xB1, 0x64, 0]) :=
  ⟨by decide, response_is_magic_then_command 0x64 (by decide) [0x41, 0xF7, 0xB1, 0x64, 0]⟩

/-- C10: in the read loop of `mysmartusb_ctl`, for every line, every `read` returns no
more than the count asked of it, the accumulated length ends at 15 or less, every index at
which the terminating zero is stored (the accumulated length after each positive read) is
below 16, at most 15 reads return a positive count, and the loop has ended within 16 calls
of `read`: further calls being allowed changes nothing. -/
theorem read_loop_bounds (tty : Tty) (c : Byte) (extra : Nat) :
    (mysmartusb_ctl (some tty) c).final = some (read_loop readFuel (loopStart c tty)) ∧
      (∀ p ∈ (read_loop readFuel (loopStart c tty)).asked, p.2 ≤ (p.1 : Int)) ∧
      (read_loop readFuel (loopStart c tty)).length ≤ 15 ∧
      (∀ i ∈ (read_loop readFuel (loopStart c tty)).nulAt, i < 16) ∧
      (read_loop readFuel (loopStart c tty)).nulAt.length =
        (read_loop readFuel (loopStart c tty)).reads ∧
      (read_loop readFuel (loopStart c tty)).reads ≤ 15 ∧
      read_loop (readFuel + extra) (loopStart c tty) = read_loop readFuel (loopStart c tty) := by
  have hinv := bufInv_loop c readFuel _ (bufInv_start c tty)
  refine ⟨ctl_final tty c, hinv.asked_ok, hinv.len_le, hinv.nul_lt, hinv.nul_len, ?_, ?_⟩
  · have h1 := hinv.reads_le
    have h2 := hinv.len_le
    omega
  · exact read_loop_fuel c _ _ _ (bufInv_start c tty) (by simp [readFuel, loopStart])
      (by simp [readFuel, loopStart])

/-! ## A device that sends a stream in bursts -/

theorem read_stream_nonpos (chunks : List (List Byte)) (n : Nat)
    (hne : ∀ ch ∈ chunks, ch ≠ [])
    (h : ¬ 0 < (read (chunks.map Arrival.bytes) n).ret) : chunks = [] ∨ n = 0 := by
  cases chunks with
  | nil => left; rfl
  | cons ch rest =>
    right
    by_contra hn
    apply h
    have hch : 0 < ch.length := List.length_pos.mpr (hne ch (List.mem_cons_self _ _))
    rw [List.map_cons, read_bytes, if_neg hn]
    split_ifs with h2
    · simpa using hch
    · simp; omega

theorem read_stream_pos (chunks : List (List Byte)) (n : Nat)
    (hne : ∀ ch ∈ chunks, ch ≠ [])
    (h : 0 < (read (chunks.map Arrival.bytes) n).ret) :
    ∃ chunks2 : List (List Byte),
      (read (chunks.map Arrival.bytes) n).rest = chunks2.map Arrival.bytes ∧
      (∀ ch ∈ chunks2, ch ≠ []) ∧
      (read (chunks.map Arrival.bytes) n).data ++ chunks2.flatten = chunks.flatten := by
  cases chunks with
  | nil => simp [read] at h
  | cons ch rest =>
    have hrest : ∀ x ∈ rest, x ≠ [] := fun x hx => hne x (List.mem_cons_of_mem _ hx)
    rw [List.map_cons, read_bytes] at h ⊢
    split_ifs at h ⊢ with h1 h2
    · simp at h
    · exact ⟨rest, rfl, hrest, by simp⟩
    · refine ⟨ch.drop n :: rest, by simp, ?_, ?_⟩
      · intro x hx
        rcases List.mem_cons.mp hx with hx | hx
        · subst hx
          intro h0
          have := congrArg List.length h0
          simp at this
          omega
        · exact hrest x hx
      · simp [← List.append_assoc, List.take_append_drop]

theorem streamInv_body {stream : List Byte} {s : LoopState} (h : StreamInv stream s)
    (hpos : 0 < (read s.tty (15 - s.length)).ret) :
    StreamInv stream (loop_body s (read s.tty (15 - s.length))) := by
  obtain ⟨chunks, htty, hne, hjoin⟩ := h
  rw [htty] at hpos ⊢
  obtain ⟨chunks2, h1, h2, h3⟩ := read_stream_pos chunks _ hne hpos
  refine ⟨chunks2, by simp [loop_body, h1], h2, ?_⟩
  simp only [loop_body]
  rw [List.append_assoc, h3, hjoin]

theorem crlf_not_in_magic (pre : List Byte) (h : [0x0D, 0x0A] <:+: pre ++ [0xF7, 0xB1]) :
    ([0x0D, 0x0A] : List Byte) <:+: pre := by
  induction pre with
  | nil => exact absurd h (by decide)
  | cons a p ih =>
    rw [List.cons_append, List.infix_cons_iff] at h
    rcases h with h | h
    · cases p with
      | nil =>
        rw [List.nil_append, List.cons_prefix_cons] at h
        exact absurd h.2 (by decide)
      | cons b q =>
        rw [List.cons_append, List.cons_prefix_cons, List.cons_prefix_cons] at h
        obtain ⟨h1, h2, _⟩ := h
        rw [← h1, ← h2]
        exact (List.prefix_append [0x0D, 0x0A] q).isInfix
    · exact List.infix_cons (ih h)

theorem cstr_crlf : cstr crlf = [0x0D, 0x0A] := by decide

/-- Where the loop stops, the whole response has been received. -/
theorem read_loop_gets_response (c : Byte) (pre post : List Byte)
    (hlen : pre.length + 3 ≤ 15) (hcrlf : ¬ [0x0D, 0x0A] <:+: pre)
    (fuel : Nat) (s : LoopState) (hb : BufInv c s)
    (hs : StreamInv (pre ++ [0xF7, 0xB1, c] ++ post) s) (hf : 16 ≤ s.length + fuel) :
    pre ++ [0xF7, 0xB1, c] <+: (read_loop fuel s).received := by
  have hpat : pre ++ [0xF7, 0xB1, c] <+: pre ++ [0xF7, 0xB1, c] ++ post :=
    List.prefix_append _ _
  have hrcv : ∀ t : LoopState, StreamInv (pre ++ [0xF7, 0xB1, c] ++ post) t →
      t.received <+: pre ++ [0xF7, 0xB1, c] ++ post := by
    intro t ht
    obtain ⟨chunks, _, _, hj⟩ := ht
    exact ⟨_, hj⟩
  induction fuel generalizing s with
  | zero => have := hb.len_le; omega
  | succ n ih =>
    unfold read_loop
    simp only
    split_ifs with h1 h2
    · -- the loop breaks on CR LF
      have hb1 := (bufInv_body hb h1.1).1
      have hs1 := streamInv_body hs h1.1
      set s1 := loop_body s (read s.tty (15 - s.length)) with hs1def
      have hpos : 0 < s1.length := by omega
      have hin : ([0x0D, 0x0A] : List Byte) <:+: s1.received := by
        have h3 := (strstr_isSome_iff _ _).mp h2.2
        rw [cstr_crlf, cstr_buffer_of_inv hb1 hpos] at h3
        exact h3.trans (cstr_initial _).isInfix
      by_contra hnot
      have hshort : s1.received.length ≤ (pre ++ [0xF7, 0xB1]).length := by
        by_contra hlong
        apply hnot
        apply List.prefix_of_prefix_length_le hpat (hrcv s1 hs1)
        simp at hlong ⊢
        omega
      have hpm : pre ++ [0xF7, 0xB1] <+: pre ++ [0xF7, 0xB1, c] ++ post :=
        ⟨[c] ++ post, by simp⟩
      have hpre := List.prefix_of_prefix_length_le (hrcv s1 hs1) hpm hshort
      exact hcrlf (crlf_not_in_magic pre (hin.trans hpre.isInfix))
    · have hb1 := bufInv_body hb h1.1
      exact ih _ hb1.1 (streamInv_body hs h1.1) (by omega)
    · -- the read brought nothing: the stream is used up, or fifteen bytes are in
      obtain ⟨chunks, htty, hne, hjoin⟩ := hs
      have hnp : ¬ 0 < (read (chunks.map Arrival.bytes) (15 - s.length)).ret := by
        rw [← htty]
        intro hp
        exact h1 ⟨hp, by have := hb.len_le; omega⟩
      show pre ++ [0xF7, 0xB1, c] <+: s.received
      rcases read_stream_nonpos chunks _ hne hnp with h0 | h0
      · subst h0
        rw [List.flatten_nil, List.append_nil] at hjoin
        rw [hjoin]
        exact hpat
      · apply List.prefix_of_prefix_length_le hpat ⟨_, hjoin⟩
        have := hb.rcv_len
        have := hb.len_le
        simp
        omega

theorem cstr_append_of_no_zero (pre rest : List Byte) (h : ∀ b ∈ pre, b ≠ 0) :
    cstr (pre ++ rest) = pre ++ cstr rest := by
  unfold cstr
  apply List.takeWhile_append_of_pos
  intro b hb
  simpa using h b hb

theorem response_in_cstr (c : Byte) (pre w : List Byte) (h : ∀ b ∈ pre, b ≠ 0) :
    cstr (response c) <:+: cstr (pre ++ [0xF7, 0xB1, c] ++ w) := by
  rw [List.append_assoc, cstr_append_of_no_zero _ _ h, cstr_response]
  have h1 : cstr ([0xF7, 0xB1, c] ++ w) = 0xF7 :: 0xB1 :: cstr (c :: w) := by
    simp [cstr, List.takeWhile]
  rw [h1]
  by_cases hc : c = 0
  · subst hc
    have h2 : cstr ((0 : Byte) :: w) = [] := by simp [cstr, List.takeWhile]
    rw [h2, if_pos rfl]
    exact ⟨pre, [], by simp⟩
  · have hc1 : (c != 0) = true := by simpa using hc
    have h2 : cstr (c :: w) = c :: cstr w := by simp [cstr, List.takeWhile, hc1]
    rw [h2, if_neg hc]
    exact ⟨pre, cstr w, by simp⟩

/-- C2, counterexample: the stream `CR LF F7 B1 'd'` holds the response to `'d'` within
its first 15 bytes; sent as the two bursts `CR LF` and `F7 B1 'd'`, it makes the loop stop
after the first read, and `mysmartusb_ctl` returns `-1`. So does the stream
`00 F7 B1 'd'` sent in one burst. -/
theorem ctl_fails_after_early_crlf :
    [[0x0D, 0x0A], [0xF7, 0xB1, 0x64]].flatten = ([0x0D, 0x0A] : List Byte) ++ [0xF7, 0xB1, 0x64] ∧
      (mysmartusb_ctl (some ([[0x0D, 0x0A], [0xF7, 0xB1, 0x64]].map Arrival.bytes)) 0x64).ret
        = -1 ∧
      (mysmartusb_ctl (some ([[0x00, 0xF7, 0xB1, 0x64]].map Arrival.bytes)) 0x64).ret = -1 := by
  decide

/-- C2, amended: for every command byte `c` and every device whose output stream holds
`F7 B1 c` within its first 15 bytes with neither a zero byte nor a `CR LF` pair in front of
it, however the stream is split into non-empty bursts for the successive reads,
`mysmartusb_ctl` returns `0`. -/
theorem ctl_succeeds_on_clean_stream (c : Byte) (pre post : List Byte)
    (chunks : List (List Byte))
    (hlen : pre.length + 3 ≤ 15)
    (hzero : ∀ b ∈ pre, b ≠ 0)
    (hcrlf : ¬ [0x0D, 0x0A] <:+: pre)
    (hne : ∀ ch ∈ chunks, ch ≠ [])
    (hsplit : chunks.flatten = pre ++ [0xF7, 0xB1, c] ++ post) :
    (mysmartusb_ctl (some (chunks.map Arrival.bytes)) c).ret = 0 := by
  rw [ctl_search]
  have hstart : StreamInv (pre ++ [0xF7, 0xB1, c] ++ post)
      (loopStart c (chunks.map Arrival.bytes)) :=
    ⟨chunks, rfl, hne, by simpa [loopStart] using hsplit⟩
  obtain ⟨w, hw⟩ := read_loop_gets_response c pre post hlen hcrlf readFuel _
    (bufInv_start c _) hstart (by simp [readFuel, loopStart])
  rw [← hw]
  exact response_in_cstr c pre w hzero

/-- C2, witness: the stream `'A' F7 B1 'd' CR LF` sent as the bursts `'A' F7` and
`B1 'd' CR LF`. -/
theorem ctl_succeeds_on_clean_stream_witness :
    (mysmartusb_ctl
      (some ([[0x41, 0xF7], [0xB1, 0x64, 0x0D, 0x0A]].map Arrival.bytes)) 0x64).ret = 0 :=
  ctl_succeeds_on_clean_stream 0x64 [0x41] [0x0D, 0x0A] [[0x41, 0xF7], [0xB1, 0x64, 0x0D, 0x0A]]
    (by decide) (by simp) (by decide) (by simp) (by rfl)

/-! ## Claims about `main` and `open_tty` -/

theorem main_calls (l : Int) (a : Byte) (b c : String) (rest : List (Int × Arm))
    (line : Option Tty) (terminal : Int) (acc : MainResult) :
    (runFrom line terminal ((l, Arm.ctl a b c) :: rest) acc).calls =
      acc.calls ++ [(a, mysmartusb_ctl line a)] := by
  by_cases h : (mysmartusb_ctl line a).ret = -1
  · simp [runFrom, runArm, h]
  · simp [runFrom, runArm, h]

/-- C4: for each of the seven command modes `main` calls `mysmartusb_ctl` exactly once, with
`'d'`, `'p'`, `'q'`, `'r'`, `'R'`, `'+'`, `'-'` respectively, and these bytes are pairwise
distinct; for every command byte `c`, once the channel is open the one block written is the
8 bytes `E6 B5 BA B9 B2 B3 A9 c`, and the response array is `F7 B1 c 00`, its third byte
being the last byte of the frame; for the seven commands the string searched for ends in
the command byte. -/
theorem main_sends_one_command (line : Option Tty) (terminal : Int) (tty : Tty) (c : Byte) :
    (main DATA_MODE line terminal).calls = [(0x64, mysmartusb_ctl line 0x64)] ∧
    (main PROGRAMMER_MODE line terminal).calls = [(0x70, mysmartusb_ctl line 0x70)] ∧
    (main QUIET_MODE line terminal).calls = [(0x71, mysmartusb_ctl line 0x71)] ∧
    (main RESET_BOARD line terminal).calls = [(0x72, mysmartusb_ctl line 0x72)] ∧
    (main RESET_PROGRAMMER line terminal).calls = [(0x52, mysmartusb_ctl line 0x52)] ∧
    (main BOARD_ON line terminal).calls = [(0x2B, mysmartusb_ctl line 0x2B)] ∧
    (main BOARD_OFF line terminal).calls = [(0x2D, mysmartusb_ctl line 0x2D)] ∧
    ([0x64, 0x70, 0x71, 0x72, 0x52, 0x2B, 0x2D] : List Byte).Nodup ∧
    (mysmartusb_ctl (some tty) c).written = [[0xE6, 0xB5, 0xBA, 0xB9, 0xB2, 0xB3, 0xA9, c]] ∧
    (frameBuffer c).take 8 = [0xE6, 0xB5, 0xBA, 0xB9, 0xB2, 0xB3, 0xA9, c] ∧
    response c = [0xF7, 0xB1, c, 0] ∧
    ([0x64, 0x70, 0x71, 0x72, 0x52, 0x2B, 0x2D] : List Byte).map
        (fun a => (cstr (response a)).getLast?) =
      [some 0x64, some 0x70, some 0x71, some 0x72, some 0x52, some 0x2B, some 0x2D] := by
  refine ⟨?_, ?_, ?_, ?_, ?_, ?_, ?_, by decide, ?_, rfl, rfl, by decide⟩
  · exact main_calls _ _ _ _ _ line terminal _
  · exact main_calls _ _ _ _ _ line terminal _
  · exact main_calls _ _ _ _ _ line terminal _
  · exact main_calls _ _ _ _ _ line terminal _
  · exact main_calls _ _ _ _ _ line terminal _
  · exact main_calls _ _ _ _ _ line terminal _
  · exact main_calls _ _ _ _ _ line terminal _
  · unfold mysmartusb_ctl
    simp only
    split_ifs <;> rfl

/-- C6, failing input: the device reports a flag word with `PARODD` set and even parity is
asked for. `open_tty` succeeds and the flag word it applies has `PARENB` set and `PARODD`
still set, which is odd polarity; with `PARODD` clear beforehand the same call gives even
polarity. -/
theorem even_parity_keeps_parodd :
    open_tty linuxBits
        { fd := 3,
          prior := some { c_iflag := 0, c_oflag := 0, c_cflag := linuxBits.PARODD, c_lflag := 0,
                          vmin := 0, vtime := 0, ispeed := 0, ospeed := 0 },
          speedOk := true, setOk := true } 13 0 EVEN_PARITY =
      (3, some { c_iflag := 0, c_oflag := 0, c_cflag := 0o5660, c_lflag := 0,
                 vmin := 1, vtime := 0, ispeed := 13, ospeed := 13 }) ∧
    parityEnabled linuxBits 0o5660 = true ∧
    oddPolarity linuxBits 0o5660 = true ∧
    oddPolarity linuxBits
      (configure linuxBits { c_iflag := 0, c_oflag := 0, c_cflag := 0, c_lflag := 0,
                             vmin := 0, vtime := 0, ispeed := 0, ospeed := 0 }
        13 0 EVEN_PARITY).c_cflag = false := by
  decide

/-! ## The parity bits on Linux -/

theorem and_two_pow_ne_zero (x n : Nat) : (x &&& 2 ^ n != 0) = x.testBit n := by
  by_cases h : x.testBit n = true
  · rw [h]
    have : (x &&& 2 ^ n).testBit n = true := by simp [h, Nat.testBit_two_pow_self]
    have hne : x &&& 2 ^ n ≠ 0 := by
      intro h0
      rw [h0] at this
      simp at this
    simpa using hne
  · have hf : x.testBit n = false := by simpa using h
    rw [hf]
    have : x &&& 2 ^ n = 0 := by
      apply Nat.eq_of_testBit_eq
      intro i
      by_cases hi : n = i
      · subst hi; simp [hf]
      · simp [Nat.testBit_two_pow_of_ne hi]
    simp [this]

theorem parityEnabled_linux (x : Nat) : parityEnabled linuxBits x = x.testBit 8 :=
  and_two_pow_ne_zero x 8

theorem oddPolarity_linux (x : Nat) : oddPolarity linuxBits x = x.testBit 9 :=
  and_two_pow_ne_zero x 9

/-- The parity bits `open_tty` applies on Linux, for every prior flag word: none clears
`PARENB`, odd sets `PARENB` and `PARODD`, and even sets `PARENB` and leaves `PARODD` as it
was found. -/
theorem configure_parity_bits (t : Termios) (baud : Nat) (two_stop_bits : Int) :
    parityEnabled linuxBits (configure linuxBits t baud two_stop_bits NO_PARITY).c_cflag = false ∧
    parityEnabled linuxBits (configure linuxBits t baud two_stop_bits ODD_PARITY).c_cflag = true ∧
    oddPolarity linuxBits (configure linuxBits t baud two_stop_bits ODD_PARITY).c_cflag = true ∧
    parityEnabled linuxBits (configure linuxBits t baud two_stop_bits EVEN_PARITY).c_cflag = true ∧
    oddPolarity linuxBits (configure linuxBits t baud two_stop_bits EVEN_PARITY).c_cflag =
      oddPolarity linuxBits t.c_cflag := by
  simp only [parityEnabled_linux, oddPolarity_linux]
  have a1 : Nat.testBit 4294965903 8 = false := by decide
  have a2 : Nat.testBit 4294965903 9 = true := by decide
  have b1 : Nat.testBit 2224 8 = false := by decide
  have b2 : Nat.testBit 2224 9 = false := by decide
  have c1 : Nat.testBit 2288 8 = false := by decide
  have c2 : Nat.testBit 2288 9 = false := by decide
  have d1 : Nat.testBit 768 8 = true := by decide
  have d2 : Nat.testBit 768 9 = true := by decide
  have e1 : Nat.testBit 256 8 = true := by decide
  have e2 : Nat.testBit 256 9 = false := by decide
  have f1 : Nat.testBit 64 8 = false := by decide
  have f2 : Nat.testBit 64 9 = false := by decide
  by_cases h2 : two_stop_bits = 0
  · simp [configure, linuxBits, maskOff, h2, NO_PARITY, ODD_PARITY, EVEN_PARITY,
      a1, a2, b1, b2, d1, d2, e1, e2]
  · simp [configure, linuxBits, maskOff, h2, NO_PARITY, ODD_PARITY, EVEN_PARITY,
      a1, a2, c1, c2, d1, d2, e1, e2, f1, f2]

/-! ## Claims about the terminal session -/

/-- C7, failing input: the channel is open and the first `select` fails with `EIO` (5).
`terminal` reports the error with `perror`, then closes the channel, and returns `-1`
with neither `delwin` nor `endwin` called; on the cancellation path (no iteration, `running`
found clear) both regions are deleted, `endwin` is called and the channel is closed, once
each. -/
theorem fatal_select_skips_teardown :
    (∃ s, terminal
        { baud_raw := "9600", parity := NO_PARITY, two_stopbits := 0, line := some [],
          start := 0, stack := List.replicate 128 0 }
        [{ ret := -1, errno := 5, ttyReady := false, stdinReady := false, keys := [],
           wr := 0, now := 0 }] = Outcome.returned (-1) s ∧
      s.log = [Event.newwin, Event.newwin, Event.select (-1), Event.perror, Event.closeTty] ∧
      s.log.count Event.delwin = 0 ∧ s.log.count Event.endwin = 0 ∧
      s.log.count Event.closeTty = 1) ∧
    (∃ s, terminal
        { baud_raw := "9600", parity := NO_PARITY, two_stopbits := 0, line := some [],
          start := 0, stack := List.replicate 128 0 } [] = Outcome.returned 0 s ∧
      s.log = [Event.newwin, Event.newwin, Event.delwin, Event.delwin, Event.endwin,
        Event.closeTty]) :=
  ⟨⟨_, rfl, rfl, by decide, by decide, by decide⟩, ⟨_, rfl, rfl⟩⟩

set_option maxRecDepth 8000 in
/-- C9, failing input: the keyboard is ready with 129 keys pending. The drain loop stores
the 129th key at index 128, outside `buffer[128]`; with 128 keys pending the last store is
at index 127 and the length passed on is 128. -/
theorem drain_overruns_buffer :
    drain (List.replicate 129 0x61) (List.replicate 128 0) 0 = Except.error 128 ∧
    terminal
        { baud_raw := "9600", parity := NO_PARITY, two_stopbits := 0, line := some [],
          start := 0, stack := List.replicate 128 0 }
        [{ ret := 1, errno := 0, ttyReady := false, stdinReady := true,
           keys := List.replicate 129 0x61, wr := 129, now := 0 }] = Outcome.fault 128 ∧
    drain (List.replicate 128 0x61) (List.replicate 128 0) 0 =
      Except.ok (List.replicate 128 0x61, 128) := by
  refine ⟨by rfl, by rfl, by rfl⟩

theorem toInt32_of_range (x : Int) (h1 : -2147483648 ≤ x) (h2 : x < 2147483648) :
    toInt32 x = x := by
  unfold toInt32
  omega

theorem hms_in_range (d : Int) (h0 : 0 ≤ d) (h1 : d < 2147486400) :
    hms d = (d / 3600, d % 3600 / 60, d % 60) := by
  have e1 : d.tdiv 3600 = d / 3600 := Int.tdiv_eq_ediv h0 (by decide)
  have hq : toInt32 (d / 3600) = d / 3600 := toInt32_of_range _ (by omega) (by omega)
  have hp : toInt32 (d / 3600 * 3600) = d / 3600 * 3600 :=
    toInt32_of_range _ (by omega) (by omega)
  have e2 : (d - d / 3600 * 3600).tdiv 60 = (d - d / 3600 * 3600) / 60 :=
    Int.tdiv_eq_ediv (by omega) (by decide)
  have hm : toInt32 ((d - d / 3600 * 3600) / 60) = (d - d / 3600 * 3600) / 60 :=
    toInt32_of_range _ (by omega) (by omega)
  have hp2 : toInt32 ((d - d / 3600 * 3600) / 60 * 60) = (d - d / 3600 * 3600) / 60 * 60 :=
    toInt32_of_range _ (by omega) (by omega)
  have hs : toInt32 (d - d / 3600 * 3600 - (d - d / 3600 * 3600) / 60 * 60)
      = d - d / 3600 * 3600 - (d - d / 3600 * 3600) / 60 * 60 :=
    toInt32_of_range _ (by omega) (by omega)
  unfold hms
  simp only [e1, hq, hp, e2, hm, hp2, hs]
  refine Prod.ext ?_ (Prod.ext ?_ ?_) <;> simp only <;> omega

theorem fmt02u_two_digits (x : Int) (h0 : 0 ≤ x) (h1 : x < 100) : (fmt02u x).length = 2 := by
  obtain ⟨n, rfl⟩ := Int.eq_ofNat_of_zero_le h0
  have hn : n < 100 := by omega
  interval_cases n <;> rfl

/-- C8, counterexample: an elapsed time of `2 ^ 32 * 3600` seconds. The quotient
`diff / 3600` is `2 ^ 32`, which as an `int` is `0`; minutes and seconds come out as `0`
as well and the clock shows `00:00:00`. -/
theorem hms_wraps_at_int_range :
    hms (4294967296 * 3600) = (0, 0, 0) ∧ clock (4294967296 * 3600) = "00:00:00" ∧
      (0 : Int) * 3600 + 0 * 60 + 0 ≠ 4294967296 * 3600 := by
  decide

/-- C8, amended: for every elapsed time `d` with `0 ≤ d < 2147486400` seconds (the range
in which `hours * 3600` fits an `int`), the hours `h`, minutes `m` and seconds `s` the loop
computes satisfy `h * 3600 + m * 60 + s = d` with `0 ≤ h`, `0 ≤ m < 60` and `0 ≤ s < 60`;
they are rendered by `%02u:%02u:%02u`, minutes and seconds as exactly two digits and hours
as exactly two digits while `d < 360000`; `d = 3725` renders as `01:02:05`. -/
theorem hms_decomposes (d : Int) (h0 : 0 ≤ d) (h1 : d < 2147486400) :
    (hms d).1 * 3600 + (hms d).2.1 * 60 + (hms d).2.2 = d ∧
      0 ≤ (hms d).1 ∧
      0 ≤ (hms d).2.1 ∧ (hms d).2.1 < 60 ∧
      0 ≤ (hms d).2.2 ∧ (hms d).2.2 < 60 ∧
      clock d = fmt02u (hms d).1 ++ ":" ++ fmt02u (hms d).2.1 ++ ":" ++ fmt02u (hms d).2.2 ∧
      (fmt02u (hms d).2.1).length = 2 ∧ (fmt02u (hms d).2.2).length = 2 ∧
      (d < 360000 → (fmt02u (hms d).1).length = 2) ∧
      clock 3725 = "01:02:05" := by
  rw [hms_in_range d h0 h1]
  refine ⟨by simp only; omega, by simp only; omega, by simp only; omega, by simp only; omega,
    by simp only; omega, by simp only; omega, ?_, ?_, ?_, ?_, by decide⟩
  · simp only [clock, hms_in_range d h0 h1]
  · exact fmt02u_two_digits _ (by simp only; omega) (by simp only; omega)
  · exact fmt02u_two_digits _ (by simp only; omega) (by simp only; omega)
  · intro h2
    exact fmt02u_two_digits _ (by simp only; omega) (by simp only; omega)

/-- C8, witness: an elapsed time of 3725 seconds. -/
theorem hms_decomposes_witness :
    hms 3725 = (1, 2, 5) ∧ (1 : Int) * 3600 + 2 * 60 + 5 = 3725 ∧ clock 3725 = "01:02:05" :=
  ⟨by decide, by decide, (hms_decomposes 3725 (by decide) (by decide)).2.2.2.2.2.2.2.2.2.2⟩

/-! ## The byte counters of the terminal session -/

theorem rxTotal_append (l1 l2 : List Event) : rxTotal (l1 ++ l2) = rxTotal l1 + rxTotal l2 := by
  induction l1 with
  | nil => simp [rxTotal]
  | cons e es ih => cases e <;> simp [rxTotal, ih, Nat.add_assoc]

theorem txAsked_append (l1 l2 : List Event) : txAsked (l1 ++ l2) = txAsked l1 + txAsked l2 := by
  induction l1 with
  | nil => simp [txAsked]
  | cons e es ih => cases e <;> simp [txAsked, ih, Nat.add_assoc]

/-- With at most 128 keys pending the drain loop stays inside the buffer and counts them. -/
theorem drain_ok (keys buffer : List Byte) (bytes : Nat) (h : bytes + keys.length ≤ 128) :
    ∃ buf, drain keys buffer bytes = Except.ok (buf, bytes + keys.length) := by
  induction keys generalizing buffer bytes with
  | nil => exact ⟨buffer, rfl⟩
  | cons c cs ih =>
    simp only [List.length_cons] at h
    have hb : bytes < 128 := by omega
    obtain ⟨buf, hbuf⟩ := ih (buffer.set bytes c) (bytes + 1) (by omega)
    refine ⟨buf, ?_⟩
    simp only [drain, hb, if_true, hbuf, List.length_cons]
    congr 2
    omega

theorem follows_serveTty (s : Term) (h : Counted s) : Follows s (serveTty s) := by
  obtain ⟨hrx, htx⟩ := h
  unfold serveTty
  simp only
  split_ifs with hpos
  · refine ⟨⟨?_, ?_⟩, ?_, ?_⟩
    · simp only [rxTotal_append, rxTotal, hpos, if_true, hrx]
      omega
    · simp only [txAsked_append, txAsked, htx]
      omega
    · simp only [rxTotal_append]; omega
    · simp only [txAsked_append]; omega
  · refine ⟨⟨?_, ?_⟩, ?_, ?_⟩
    · simp only [rxTotal_append, rxTotal, hpos, if_false, hrx]
      omega
    · simp only [txAsked_append, txAsked, htx]
      omega
    · simp only [rxTotal_append]; omega
    · simp only [txAsked_append]; omega

theorem follows_serveKeys (s : Term) (t : Tick) (h : Counted s) (hk : t.keys.length ≤ 128) :
    ∃ s2, serveKeys s t = Except.ok s2 ∧ Follows s s2 := by
  obtain ⟨hrx, htx⟩ := h
  obtain ⟨buf, hbuf⟩ := drain_ok t.keys s.buffer 0 (by omega)
  unfold serveKeys
  rw [hbuf]
  refine ⟨_, rfl, ⟨?_, ?_⟩, ?_, ?_⟩
  · simp only [rxTotal_append, rxTotal, hrx]
    omega
  · simp only [txAsked_append, txAsked, htx, Int.toNat_ofNat]
    omega
  · simp only [rxTotal_append]; omega
  · simp only [txAsked_append]; omega

theorem follows_trans {s1 s2 s3 : Term} (h1 : Follows s1 s2) (h2 : Follows s2 s3) :
    Follows s1 s3 :=
  ⟨h2.counted, Nat.le_trans h1.rx_le h2.rx_le, Nat.le_trans h1.tx_le h2.tx_le⟩

/-- Appending events that are neither reads nor writes leaves the agreement untouched. -/
theorem follows_log (s s2 : Term) (h : Counted s) (es : List Event)
    (h1 : s2.rx = s.rx) (h2 : s2.tx = s.tx) (hl : s2.log = s.log ++ es)
    (hr : rxTotal es = 0) (hw : txAsked es = 0) : Follows s s2 := by
  obtain ⟨hrx, htx⟩ := h
  refine ⟨⟨?_, ?_⟩, ?_, ?_⟩
  · rw [hl, h1, rxTotal_append, hr, hrx]; omega
  · rw [hl, h2, txAsked_append, hw, htx]; omega
  · rw [hl, rxTotal_append]; omega
  · rw [hl, txAsked_append]; omega

theorem follows_serve (s : Term) (t : Tick) (h : Counted s) (hk : t.keys.length ≤ 128) :
    ∃ s2, serve s t = Except.ok s2 ∧ Follows s s2 := by
  have h1 : Follows s (if t.ttyReady then serveTty s else s) := by
    split_ifs
    · exact follows_serveTty s h
    · exact ⟨h, Nat.le_refl _, Nat.le_refl _⟩
  have h2 : ∃ s2, (if t.stdinReady then serveKeys (if t.ttyReady then serveTty s else s) t
      else Except.ok (if t.ttyReady then serveTty s else s)) = Except.ok s2 ∧
      Follows (if t.ttyReady then serveTty s else s) s2 := by
    by_cases hs : t.stdinReady = true
    · rw [if_pos hs]
      exact follows_serveKeys _ t h1.counted hk
    · rw [if_neg hs]
      exact ⟨_, rfl, h1.counted, Nat.le_refl _, Nat.le_refl _⟩
  obtain ⟨s2, e2, f2⟩ := h2
  unfold serve
  simp only [e2]
  exact ⟨_, rfl, follows_trans h1 (follows_trans f2 (follows_log s2 _ f2.counted _ rfl rfl rfl rfl rfl))⟩

theorem follows_status (ses : Session) (s : Term) (now : Int) (h : Counted s) :
    Follows s (status ses s now) :=
  follows_log s _ h _ rfl rfl rfl rfl rfl

theorem follows_iteration (ses : Session) (s : Term) (t : Tick) (h : Counted s)
    (hk : t.keys.length ≤ 128) :
    ∃ s2, (iteration ses s t).state? = some s2 ∧ Follows s s2 := by
  have h0 : Follows s { s with log := s.log ++ [Event.select t.ret] } :=
    follows_log s _ h [Event.select t.ret] rfl rfl rfl rfl rfl
  have h1 : ∃ s1, (if t.ret > 0 then serve { s with log := s.log ++ [Event.select t.ret] } t
      else Except.ok { s with log := s.log ++ [Event.select t.ret] }) = Except.ok s1 ∧
      Follows s s1 := by
    by_cases hr : t.ret > 0
    · rw [if_pos hr]
      obtain ⟨s1, e1, f1⟩ := follows_serve _ t h0.counted hk
      exact ⟨s1, e1, follows_trans h0 f1⟩
    · rw [if_neg hr]
      exact ⟨_, rfl, h0⟩
  obtain ⟨s1, e1, f1⟩ := h1
  unfold iteration
  simp only [e1]
  split_ifs
  · exact ⟨_, rfl, follows_trans f1 (follows_log s1 _ f1.counted _ rfl rfl rfl rfl rfl)⟩
  · exact ⟨_, rfl, follows_trans f1 (follows_status ses s1 t.now f1.counted)⟩

theorem counted_iterate (ses : Session) (ticks : List Tick) (s s1 : Term) (h : Counted s)
    (hk : ∀ x ∈ ticks, x.keys.length ≤ 128)
    (h1 : iterate ses s ticks = Outcome.continues s1) : Counted s1 := by
  induction ticks generalizing s with
  | nil =>
    simp only [iterate, Outcome.continues.injEq] at h1
    rw [← h1]; exact h
  | cons t ts ih =>
    simp only [iterate] at h1
    cases hi : iteration ses s t with
    | continues s2 =>
      rw [hi] at h1
      obtain ⟨s3, e3, f3⟩ := follows_iteration ses s t h (hk t (List.mem_cons_self _ _))
      rw [hi] at e3
      simp only [Outcome.state?, Option.some.injEq] at e3
      rw [← e3] at f3
      exact ih s2 f3.counted (fun x hx => hk x (List.mem_cons_of_mem _ hx)) h1
    | returned r s2 => rw [hi] at h1; simp at h1
    | fault i => rw [hi] at h1; simp at h1

theorem iterate_snoc (ses : Session) (ticks : List Tick) (t : Tick) (s s1 : Term)
    (h1 : iterate ses s ticks = Outcome.continues s1) :
    iterate ses s (ticks ++ [t]) = iteration ses s1 t := by
  induction ticks generalizing s with
  | nil =>
    simp only [iterate, Outcome.continues.injEq] at h1
    subst h1
    simp only [List.nil_append, iterate]
    cases iteration ses s t <;> rfl
  | cons x xs ih =>
    simp only [iterate, List.cons_append] at h1 ⊢
    cases hi : iteration ses s x with
    | continues s2 => rw [hi] at h1; simp only; exact ih s2 h1
    | returned r s2 => rw [hi] at h1; simp at h1
    | fault i => rw [hi] at h1; simp at h1

theorem counted_start (ses : Session) (tty : Tty) : Counted (termStart ses tty) :=
  ⟨rfl, rfl⟩

/-- C5, counterexample: the keyboard is ready with three keys pending and the `write(2)`
inside `write_tty` fails with `-1`. After the iteration `tx` is 3 although no byte was
written to the channel. -/
theorem tx_counts_unwritten_bytes :
    ∃ s, iterate
        { baud_raw := "9600", parity := NO_PARITY, two_stopbits := 0, line := some [],
          start := 0, stack := List.replicate 128 0 }
        (termStart
          { baud_raw := "9600", parity := NO_PARITY, two_stopbits := 0, line := some [],
            start := 0, stack := List.replicate 128 0 } [])
        [{ ret := 1, errno := 0, ttyReady := false, stdinReady := true,
           keys := [0x61, 0x62, 0x63], wr := -1, now := 0 }] = Outcome.continues s ∧
      s.tx = 3 ∧ txWritten s.log = 0 ∧ s.tx ≠ txWritten s.log :=
  ⟨_, rfl, rfl, rfl, by decide⟩

/-- C5, amended: for every run of the terminal loop in which no iteration finds more than
128 keys pending, after every iteration `rx` equals, modulo `2 ^ 32`, the sum of the byte
counts returned by the positive reads from the channel and `tx` equals, modulo `2 ^ 32`,
the sum of the lengths `write_tty` was called with (the numbers of keys drained); from one
iteration to the next neither counter decreases as long as its sum stays below
`2 ^ 32`. -/
theorem counters_follow_log (ses : Session) (tty : Tty) (ticks : List Tick) (t : Tick)
    (s1 : Term)
    (hk : ∀ x ∈ ticks ++ [t], x.keys.length ≤ 128)
    (h1 : iterate ses (termStart ses tty) ticks = Outcome.continues s1) :
    s1.rx = rxTotal s1.log % 2 ^ 32 ∧ s1.tx = txAsked s1.log % 2 ^ 32 ∧
      ∃ s2, iterate ses (termStart ses tty) (ticks ++ [t]) = iteration ses s1 t ∧
        (iteration ses s1 t).state? = some s2 ∧
        s2.rx = rxTotal s2.log % 2 ^ 32 ∧ s2.tx = txAsked s2.log % 2 ^ 32 ∧
        (rxTotal s2.log < 2 ^ 32 → s1.rx ≤ s2.rx) ∧
        (txAsked s2.log < 2 ^ 32 → s1.tx ≤ s2.tx) := by
  have hc1 : Counted s1 :=
    counted_iterate ses ticks _ s1 (counted_start ses tty)
      (fun x hx => hk x (List.mem_append_left _ hx)) h1
  obtain ⟨s2, e2, f2⟩ := follows_iteration ses s1 t hc1
    (hk t (List.mem_append_right _ (List.mem_singleton_self t)))
  obtain ⟨hrx1, htx1⟩ := hc1
  obtain ⟨hrx2, htx2⟩ := f2.counted
  have hle1 := f2.rx_le
  have hle2 := f2.tx_le
  refine ⟨hrx1, htx1, s2, iterate_snoc ses ticks t _ s1 h1, e2, hrx2, htx2, ?_, ?_⟩
  · intro hlt
    rw [hrx1, hrx2]
    omega
  · intro hlt
    rw [htx1, htx2]
    omega

/-- C5, witness: a first iteration that reads `'A' 'B'` from the channel, then one that
sends the key `'a'`. -/
theorem counters_follow_log_witness :
    ∃ s2, (iterate
        { baud_raw := "9600", parity := NO_PARITY, two_stopbits := 0, line := none,
          start := 0, stack := List.replicate 128 0 }
        (termStart
          { baud_raw := "9600", parity := NO_PARITY, two_stopbits := 0, line := none,
            start := 0, stack := List.replicate 128 0 } [Arrival.bytes [0x41, 0x42]])
        ([{ ret := 1, errno := 0, ttyReady := true, stdinReady := false, keys := [],
            wr := 0, now := 1 }] ++
         [{ ret := 1, errno := 0, ttyReady := false, stdinReady := true, keys := [0x61],
            wr := 1, now := 2 }])).state? = some s2 ∧
      s2.rx = rxTotal s2.log % 2 ^ 32 ∧ s2.tx = txAsked s2.log % 2 ^ 32 := by
  obtain ⟨_, _, s2, e1, e2, hrx, htx, _, _⟩ := counters_follow_log
    { baud_raw := "9600", parity := NO_PARITY, two_stopbits := 0, line := none,
      start := 0, stack := List.replicate 128 0 }
    [Arrival.bytes [0x41, 0x42]]
    [{ ret := 1, errno := 0, ttyReady := true, stdinReady := false, keys := [],
       wr := 0, now := 1 }]
    { ret := 1, errno := 0, ttyReady := false, stdinReady := true, keys := [0x61],
      wr := 1, now := 2 }
    _
    (by intro x hx
        simp only [List.mem_append, List.mem_singleton] at hx
        rcases hx with h | h <;> rw [h] <;> decide)
    rfl
  exact ⟨s2, by rw [e1]; exact e2, hrx, htx⟩

/-- The keyboard handle ready with no key pending: after a first iteration that timed out
and left the mode text `9600,N,1` in the buffer, `write_tty` is called with length `0`
and hands these eight stale bytes to `write(2)`, while `tx` stays `0`. -/
theorem empty_drain_sends_stale_buffer :
    ∃ s, iterate
        { baud_raw := "9600", parity := NO_PARITY, two_stopbits := 0, line := some [],
          start := 0, stack := List.replicate 128 0 }
        (termStart
          { baud_raw := "9600", parity := NO_PARITY, two_stopbits := 0, line := some [],
            start := 0, stack := List.replicate 128 0 } [])
        [{ ret := 0, errno := 0, ttyReady := false, stdinReady := false, keys := [],
           wr := 0, now := 1 },
         { ret := 1, errno := 0, ttyReady := false, stdinReady := true, keys := [],
           wr := 8, now := 2 }] = Outcome.continues s ∧
      s.tx = 0 ∧ txWritten s.log = 8 ∧
      Event.writeTty 0 (bytesOf "9600,N,1") 8 ∈ s.log :=
  ⟨_, rfl, rfl, rfl, by decide⟩

/-! ## How the terminal session ends -/

theorem quiet_refl (s : Term) : Quiet s s :=
  ⟨[], by simp, by simp⟩

theorem quiet_trans {s1 s2 s3 : Term} (h1 : Quiet s1 s2) (h2 : Quiet s2 s3) : Quiet s1 s3 := by
  obtain ⟨es1, e1, q1⟩ := h1
  obtain ⟨es2, e2, q2⟩ := h2
  refine ⟨es1 ++ es2, by rw [e2, e1, List.append_assoc], ?_⟩
  intro e he
  rcases List.mem_append.mp he with h | h
  · exact q1 e h
  · exact q2 e h

theorem quiet_serveTty (s : Term) : Quiet s (serveTty s) := by
  unfold serveTty
  simp only
  split_ifs
  · exact ⟨_, rfl, by simp [Event.closing]⟩
  · exact ⟨_, rfl, by simp [Event.closing]⟩

theorem quiet_serveKeys (s s2 : Term) (t : Tick) (h : serveKeys s t = Except.ok s2) :
    Quiet s s2 := by
  unfold serveKeys at h
  cases hd : drain t.keys s.buffer 0 with
  | error i => rw [hd] at h; simp at h
  | ok p =>
    rw [hd] at h
    simp only [Except.ok.injEq] at h
    rw [← h]
    exact ⟨_, rfl, by simp [Event.closing]⟩

theorem quiet_serve (s s2 : Term) (t : Tick) (h : serve s t = Except.ok s2) : Quiet s s2 := by
  have h1 : Quiet s (if t.ttyReady then serveTty s else s) := by
    split_ifs
    · exact quiet_serveTty s
    · exact quiet_refl s
  unfold serve at h
  simp only at h
  cases hk : (if t.stdinReady then serveKeys (if t.ttyReady then serveTty s else s) t
      else Except.ok (if t.ttyReady then serveTty s else s)) with
  | error i => rw [hk] at h; simp at h
  | ok s3 =>
    rw [hk] at h
    simp only [Except.ok.injEq] at h
    have h2 : Quiet (if t.ttyReady then serveTty s else s) s3 := by
      by_cases hs : t.stdinReady = true
      · rw [if_pos hs] at hk
        exact quiet_serveKeys _ _ t hk
      · rw [if_neg hs] at hk
        simp only [Except.ok.injEq] at hk
        rw [← hk]
        exact quiet_refl _
    rw [← h]
    exact quiet_trans h1 (quiet_trans h2 ⟨_, rfl, by simp [Event.closing]⟩)

theorem quiet_status (ses : Session) (s : Term) (now : Int) : Quiet s (status ses s now) :=
  ⟨_, rfl, by simp [Event.closing]⟩

/-- One iteration either goes on, having logged no closing event, or returns `-1` having
logged `perror` and then `close_tty` and no other closing event. -/
theorem iteration_exit (ses : Session) (s : Term) (t : Tick) :
    (∃ s2, iteration ses s t = Outcome.continues s2 ∧ Quiet s s2) ∨
    (∃ s1 s2, iteration ses s t = Outcome.returned (-1) s2 ∧ Quiet s s1 ∧
      s2.log = s1.log ++ [Event.perror, Event.closeTty]) ∨
    (∃ i, iteration ses s t = Outcome.fault i) := by
  have h0 : Quiet s { s with log := s.log ++ [Event.select t.ret] } :=
    ⟨_, rfl, by simp [Event.closing]⟩
  unfold iteration
  simp only
  cases hs : (if t.ret > 0 then serve { s with log := s.log ++ [Event.select t.ret] } t
      else Except.ok { s with log := s.log ++ [Event.select t.ret] }) with
  | error i => right; right; exact ⟨i, rfl⟩
  | ok s1 =>
    have h1 : Quiet s s1 := by
      by_cases hr : t.ret > 0
      · rw [if_pos hr] at hs
        exact quiet_trans h0 (quiet_serve _ _ t hs)
      · rw [if_neg hr] at hs
        simp only [Except.ok.injEq] at hs
        rw [← hs]
        exact h0
    simp only
    split_ifs
    · right; left
      exact ⟨s1, _, rfl, h1, rfl⟩
    · left
      exact ⟨_, rfl, quiet_trans h1 (quiet_status ses s1 t.now)⟩

theorem iterate_exit (ses : Session) (ticks : List Tick) (s : Term) :
    (∃ s2, iterate ses s ticks = Outcome.continues s2 ∧ Quiet s s2) ∨
    (∃ s1 s2, iterate ses s ticks = Outcome.returned (-1) s2 ∧ Quiet s s1 ∧
      s2.log = s1.log ++ [Event.perror, Event.closeTty]) ∨
    (∃ i, iterate ses s ticks = Outcome.fault i) := by
  induction ticks generalizing s with
  | nil => left; exact ⟨s, rfl, quiet_refl s⟩
  | cons t ts ih =>
    rcases iteration_exit ses s t with ⟨s2, e, q⟩ | ⟨s1, s2, e, q, l⟩ | ⟨i, e⟩
    · simp only [iterate, e]
      rcases ih s2 with ⟨s3, e3, q3⟩ | ⟨s3, s4, e3, q3, l3⟩ | ⟨i, e3⟩
      · left; exact ⟨s3, e3, quiet_trans q q3⟩
      · right; left; exact ⟨s3, s4, e3, quiet_trans q q3, l3⟩
      · right; right; exact ⟨i, e3⟩
    · right; left
      exact ⟨s1, s2, by simp only [iterate, e], q, l⟩
    · right; right
      exact ⟨i, by simp only [iterate, e]⟩

/-- Every run of `terminal` with the channel open that returns does so in one of two ways:
with `0`, the log ending in `delwin`, `delwin`, `endwin`, `close_tty`, or with `-1`, the
log ending in `perror`, `close_tty`; nothing before these is a closing event, so the
second way deletes no region and never calls `endwin`. -/
theorem terminal_exit_paths (ses : Session) (tty : Tty) (ticks : List Tick) (r : Int)
    (s : Term) (hl : ses.line = some tty) (h : terminal ses ticks = Outcome.returned r s) :
    ∃ es : List Event, (∀ e ∈ es, e.closing = false) ∧
      ((r = 0 ∧ s.log = [Event.newwin, Event.newwin] ++ es ++
          [Event.delwin, Event.delwin, Event.endwin, Event.closeTty]) ∨
       (r = -1 ∧ s.log = [Event.newwin, Event.newwin] ++ es ++
          [Event.perror, Event.closeTty])) := by
  unfold terminal at h
  rw [hl] at h
  simp only at h
  rcases iterate_exit ses ticks (termStart ses tty) with
    ⟨s2, e, es, l, q⟩ | ⟨s1, s2, e, ⟨es, l1, q⟩, l⟩ | ⟨i, e⟩
  · rw [e] at h
    simp only [Outcome.returned.injEq] at h
    refine ⟨es, q, Or.inl ⟨h.1.symm, ?_⟩⟩
    rw [← h.2]
    simp only [l, termStart]
  · rw [e] at h
    simp only [Outcome.returned.injEq] at h
    refine ⟨es, q, Or.inr ⟨h.1.symm, ?_⟩⟩
    rw [← h.2, l, l1]
    simp only [termStart]
  · rw [e] at h
    simp at h

/-- The drain loop leaves the buffer exactly when more than 128 keys are pending, and then
at index 128. -/
theorem drain_fault (keys buffer : List Byte) (bytes : Nat) (hb : bytes ≤ 128)
    (h : 128 < bytes + keys.length) : drain keys buffer bytes = Except.error 128 := by
  induction keys generalizing buffer bytes with
  | nil => simp at h; omega
  | cons c cs ih =>
    simp only [List.length_cons] at h
    by_cases hlt : bytes < 128
    · simp only [drain, hlt, if_true]
      exact ih _ _ (by omega) (by omega)
    · have : bytes = 128 := by omega
      subst this
      simp [drain]

end MySmartCtl
